import Mathlib

/-! Formal model of the `sxd-xpath` public façade (`src/lib.rs`): the `Value`
type with its XPath 1.0 coercion methods `boolean`, `number`, `string`, the
helper `str_to_num`, the `Factory`/`evaluate_xpath` error plumbing, and the
collaborating pieces (node-sets, a document fragment, Rust std float
formatting and parsing) that the façade delegates to. -/

/-! ### IEEE-754 doubles, abstracted at decimal granularity

Modelled from the spec: `f64` values as used by `Value::Number`. A finite
double is abstracted by its shortest round-trip decimal representation,
`±m × 10^e` (`m : Nat`, `e : Int`), the form in which Rust's float formatter
prints it and in which every numeric literal of the repository's tests is
written. NaN and the two infinities are explicit constructors; the sign of
zero is kept (`fin neg 0 0`). Overflow/rounding of decimals that exceed
double precision is not modelled: every decimal is exact. -/
inductive F64 where
  | nan : F64
  | inf (neg : Bool) : F64
  | fin (neg : Bool) (m : Nat) (e : Int) : F64
deriving DecidableEq, Repr

/-- Rust `f64::is_nan`. -/
def F64.isNaN : F64 → Bool
  | .nan => true
  | _ => false

/-- Rust `f64::is_infinite`. -/
def F64.isInfinite : F64 → Bool
  | .inf _ => true
  | _ => false

/-- Whether Rust `f64::signum` is negative (`n.signum() < 0.0`): the sign bit
for infinities and finite values (including `-0.0`); `false` for NaN since
`NaN < 0.0` is false. -/
def F64.signumNeg : F64 → Bool
  | .nan => false
  | .inf neg => neg
  | .fin neg _ _ => neg

/-- Whether the value IEEE-compares equal to `0.0` (both zeros do; NaN and
infinities do not). -/
def F64.isZero : F64 → Bool
  | .fin _ m _ => decide (m = 0)
  | _ => false

/-- A representation is valid when it is the canonical (shortest) decimal of
the double it stands for: the significand carries no trailing zero and the
zeros are `fin neg 0 0`. -/
def F64.valid : F64 → Bool
  | .fin _ m e => decide (m ≠ 0 → m % 10 ≠ 0) && decide (m = 0 → e = 0)
  | _ => true

/-- Whether the double is a (mathematical) integer. NaN and infinities are
not integral. -/
def F64.isIntegral : F64 → Bool
  | .fin _ m e => decide (0 ≤ e) || decide ((10 : Nat) ^ (-e).toNat ∣ m)
  | _ => false

/-! ### Decimal digit strings -/

/-- The character for a single decimal digit. -/
def digitChar : Nat → Char
  | 0 => '0'
  | 1 => '1'
  | 2 => '2'
  | 3 => '3'
  | 4 => '4'
  | 5 => '5'
  | 6 => '6'
  | 7 => '7'
  | 8 => '8'
  | _ => '9'

/-- Little-endian digit characters of `n`, with `fuel` bounding the recursion
so the definition is structural (kernel-reducible). -/
def natCharsRevFuel : Nat → Nat → List Char
  | 0, _ => []
  | _ + 1, 0 => []
  | fuel + 1, n + 1 => digitChar ((n + 1) % 10) :: natCharsRevFuel fuel ((n + 1) / 10)

/-- Little-endian digit characters of `n` (empty for zero). -/
def natCharsRev (n : Nat) : List Char := natCharsRevFuel n n

/-- Standard decimal rendering of a natural number. -/
def natChars (n : Nat) : List Char :=
  if n = 0 then ['0'] else (natCharsRev n).reverse

/-- Numeric value of a digit character. -/
def dval (c : Char) : Nat := c.toNat - 48

/-- Value of a big-endian digit character string. -/
def charsToNat (cs : List Char) : Nat :=
  cs.foldl (fun a c => a * 10 + dval c) 0

/-- ASCII decimal digit test (`'0'` to `'9'`). -/
def isDigit (c : Char) : Bool := 48 ≤ c.toNat && c.toNat ≤ 57

/-! ### Rust float formatting (`Display`)

Modelled from the spec: the standard library's `f64` Display used by
`Value::string` via `n.to_string()` — "number→string prints `NaN`,
`Infinity`, `-Infinity`, integer form without decimal, otherwise shortest
round-trip decimal". `Display` never uses exponent notation; negative zero
prints as `"0"`, pinned by the repository's test
`string_of_negative_zero_is_zero`. The `Infinity` spellings are produced by
`Value::string` itself (they are in `src/lib.rs`); plain `Display` of an
infinity is `"inf"`/`"-inf"` and is unreachable from `Value::string`. -/

/-- Digit characters of a finite double `m × 10^e`, with the decimal point
inserted when `e < 0`. -/
def finChars (m : Nat) (e : Int) : List Char :=
  if 0 ≤ e then natChars m ++ List.replicate e.toNat '0'
  else if (-e).toNat < (natChars m).length then
    (natChars m).take ((natChars m).length - (-e).toNat) ++
      '.' :: (natChars m).drop ((natChars m).length - (-e).toNat)
  else '0' :: '.' :: (List.replicate ((-e).toNat - (natChars m).length) '0' ++ natChars m)

/-- Rust `f64` `Display`/`to_string`. -/
def f64ToString : F64 → String
  | .nan => "NaN"
  | .inf true => "-inf"
  | .inf false => "inf"
  | .fin neg m e => ⟨(if neg && decide (m ≠ 0) then ['-'] else []) ++ finChars m e⟩

/-! ### Rust float parsing (`f64::from_str`)

Modelled from the spec: "string→number … parses as IEEE-754 decimal, failure
yields NaN". Rust's grammar: optional sign, then either a decimal number
(`digits [. digits] [(e|E) [sign] digits]`, at least one mantissa digit) or
one of the case-insensitive special spellings `inf`, `infinity`, `nan`.
Decimal values are taken exactly (see the `F64` abstraction note). -/

/-- Removes trailing zeros from the significand, moving them into the
exponent; canonicalises zero. Structural via `fuel`. -/
def normFinFuel : Nat → Bool → Nat → Int → F64
  | 0, neg, m, e => .fin neg m e
  | fuel + 1, neg, m, e =>
    if m = 0 then .fin neg 0 0
    else if m % 10 = 0 then normFinFuel fuel neg (m / 10) (e + 1)
    else .fin neg m e

/-- Canonical finite double for `±m × 10^e`. -/
def normFin (neg : Bool) (m : Nat) (e : Int) : F64 := normFinFuel (m + 1) neg m e

/-- Splits a character list at the first character satisfying `p`; returns
the part before it and, when found, the part after it. -/
def splitAtChar (p : Char → Bool) : List Char → List Char × Option (List Char)
  | [] => ([], none)
  | c :: cs =>
    if p c then ([], some cs)
    else
      let r := splitAtChar p cs
      (c :: r.1, r.2)

/-- Exponent part of a Rust float literal: optional sign, then a non-empty
run of digits. -/
def parseSignedExp : List Char → Option Int
  | [] => none
  | cs =>
    let (sgn, ds) :=
      match cs with
      | '-' :: rest => (true, rest)
      | '+' :: rest => (false, rest)
      | _ => (false, cs)
    if !ds.isEmpty && ds.all isDigit then
      some (if sgn then -(charsToNat ds : Int) else (charsToNat ds : Int))
    else none

/-- Decimal-number branch of Rust `f64::from_str` (sign already removed). -/
def parseDecimal (neg : Bool) (cs : List Char) : Option F64 :=
  let me := splitAtChar (fun c => c == 'e' || c == 'E') cs
  let exp? : Option Int :=
    match me.2 with
    | none => some 0
    | some ecs => parseSignedExp ecs
  match exp? with
  | none => none
  | some exp =>
    let ip := splitAtChar (fun c => c == '.') me.1
    let fp := ip.2.getD []
    if ip.1.all isDigit && fp.all isDigit && (!ip.1.isEmpty || !fp.isEmpty) then
      some (normFin neg (charsToNat (ip.1 ++ fp)) (exp - fp.length))
    else none

/-- ASCII-case-insensitive equality of character lists. -/
def eqIgnoreCase (a b : List Char) : Bool := a.map Char.toLower == b.map Char.toLower

/-- Body of Rust `f64::from_str` after the sign: a decimal number or one of
the special spellings. -/
def parseF64core (neg : Bool) (cs : List Char) : Option F64 :=
  match parseDecimal neg cs with
  | some v => some v
  | none =>
    if eqIgnoreCase cs "inf".data || eqIgnoreCase cs "infinity".data then some (.inf neg)
    else if eqIgnoreCase cs "nan".data then some .nan
    else none

/-- Rust `str::parse::<f64>` (`f64::from_str`). -/
def parseF64 (s : String) : Option F64 :=
  match s.data with
  | [] => none
  | c :: rest =>
    if c = '-' then parseF64core true rest
    else if c = '+' then parseF64core false rest
    else parseF64core false (c :: rest)

/-! ### Trimming -/

/-- Rust `char::is_whitespace`: the Unicode `White_Space` property. -/
def rustIsWhitespace (c : Char) : Bool :=
  let n := c.toNat
  decide ((9 ≤ n ∧ n ≤ 13) ∨ n = 32 ∨ n = 133 ∨ n = 160 ∨ n = 5760 ∨
    (8192 ≤ n ∧ n ≤ 8202) ∨ n = 8232 ∨ n = 8233 ∨ n = 8239 ∨ n = 8287 ∨ n = 12288)

/-- Rust `char::is_ascii_whitespace`: space, tab, newline, form feed,
carriage return. -/
def asciiIsWhitespace (c : Char) : Bool :=
  let n := c.toNat
  decide (n = 32 ∨ n = 9 ∨ n = 10 ∨ n = 12 ∨ n = 13)

/-- Removes the characters satisfying `p` from both ends of a string. -/
def trimBy (p : Char → Bool) (s : String) : String :=
  ⟨((s.data.dropWhile p).reverse.dropWhile p).reverse⟩

/-- Rust `str::trim` (Unicode-whitespace trimming). -/
def rustTrim (s : String) : String := trimBy rustIsWhitespace s

/-! ### Nodes and node-sets

Modelled from the spec: the `nodeset` module is not under `src/`. A node is
identity-comparable, has a position in the document's total order, and a
string value; a node-set is a collection of unique nodes.
`document_order_first` returns the node least in document order. -/

structure Node where
  id : Nat
  docOrder : Nat
  stringValue : String
deriving DecidableEq, Repr

structure Nodeset where
  nodes : List Node
deriving DecidableEq, Repr

/-- `Nodeset::size`. -/
def Nodeset.size (ns : Nodeset) : Nat := ns.nodes.length

/-- `Nodeset::document_order_first`: the member least in document order. -/
def Nodeset.document_order_first (ns : Nodeset) : Option Node :=
  ns.nodes.foldl
    (fun acc n =>
      match acc with
      | none => some n
      | some m => if n.docOrder < m.docOrder then some n else some m)
    none

/-! ### `Value` and its coercions (`src/lib.rs` lines 144-203) -/

/-- Alias for `String`, needed inside the `Value` declaration where the
constructor named `String` shadows the global type name. -/
abbrev RustString := String

/-- Alias for `Nodeset`, needed inside the `Value` declaration where the
constructor named `Nodeset` shadows the global type name. -/
abbrev RustNodeset := Nodeset

/-- The primary types of values of an XPath expression (`enum Value`). -/
inductive Value where
  | Boolean : Bool → Value
  | Number : F64 → Value
  | String : RustString → Value
  | Nodeset : RustNodeset → Value
deriving DecidableEq, Repr

/-- `str_to_num` (`src/lib.rs` line 156): `s.trim().parse().unwrap_or(NAN)`. -/
def str_to_num (s : String) : F64 := (parseF64 (rustTrim s)).getD .nan

/-- `Value::boolean` (`src/lib.rs` lines 161-169). -/
def Value.boolean : Value → Bool
  | .Boolean val => val
  | .Number n => !n.isZero && !n.isNaN
  | .String s => !s.data.isEmpty
  | .Nodeset nodeset => decide (0 < nodeset.size)

/-- `Value::string` (`src/lib.rs` lines 181-202). -/
def Value.string : Value → RustString
  | .Boolean v => if v then "true" else "false"
  | .Number n =>
    if n.isInfinite then (if n.signumNeg then "-Infinity" else "Infinity")
    else f64ToString n
  | .String val => val
  | .Nodeset ns =>
    match ns.document_order_first with
    | some n => n.stringValue
    | none => ""

/-- `Value::number` (`src/lib.rs` lines 171-179). -/
def Value.number : Value → F64
  | .Boolean val => if val then .fin false 1 0 else .fin false 0 0
  | .Number val => val
  | .String s => str_to_num s
  | .Nodeset ns => str_to_num (Value.string (.Nodeset ns))

deriving instance DecidableEq for Except

/-! ### XML documents

Modelled from the spec: the document collaborator (supplied by the external
`sxd_document` crate) at the granularity the claims need. A document is a
forest of element/text/comment nodes under the root node; document order is
preorder, with the root at position 0. The forest is spelled as its own
inductive (children and right siblings) so every traversal is structural. -/

inductive XmlForest where
  | nil : XmlForest
  | elem (name : String) (children : XmlForest) (rest : XmlForest) : XmlForest
  | text (content : String) (rest : XmlForest) : XmlForest
  | comment (content : String) (rest : XmlForest) : XmlForest
deriving DecidableEq, Repr

/-- Number of nodes in a forest. -/
def forestSize : XmlForest → Nat
  | .nil => 0
  | .elem _ ch rest => 1 + forestSize ch + forestSize rest
  | .text _ rest => 1 + forestSize rest
  | .comment _ rest => 1 + forestSize rest

/-- Concatenated text-descendant content of a forest: the XPath string value
of an element whose children the forest is. Comments contribute nothing. -/
def forestTexts : XmlForest → String
  | .nil => ""
  | .elem _ ch rest => forestTexts ch ++ forestTexts rest
  | .text s rest => s ++ forestTexts rest
  | .comment _ rest => forestTexts rest

/-- A document: the children of its root node. -/
structure Document where
  root_children : XmlForest
deriving DecidableEq, Repr

/-! ### The compiled-expression fragment

Modelled from the spec: the `parser`, `tokenizer`, `expression` and
`context` modules are not under `src/`; only the façade that drives them is.
The modelled fragment of the XPath grammar covers what the claims exercise:
the empty expression (no expression built), `$name` variable references, and
paths of child-element steps (`/root/child`, `root/child`, `/`), including
the `TrailingSlash` parse error. -/

/-- The spec's parser error taxonomy (§4.3). -/
inductive ParserError where
  | EmptyPredicate : ParserError
  | ExtraUnparsedTokens : ParserError
  | RanOutOfInput : ParserError
  | RightHandSideExpressionMissing : ParserError
  | ArgumentMissing : ParserError
  | TrailingSlash : ParserError
  | UnexpectedToken (t : String) : ParserError
  | TokenizerError : ParserError
deriving DecidableEq, Repr

/-- Evaluation errors of the `expression` module referenced by the spec. -/
inductive ExpressionError where
  | UnknownVariable (name : String) : ExpressionError
  | UnknownFunction (name : String) : ExpressionError
  | UnknownPrefix (p : String) : ExpressionError
  | NotANodeset : ExpressionError
deriving DecidableEq, Repr

/-- The modelled expression tree fragment. -/
inductive Expr where
  | varRef (name : String) : Expr
  | path (absolute : Bool) (steps : List String) : Expr
deriving DecidableEq, Repr

/-- Characters allowed in the modelled step/variable names. -/
def isNameChar (c : Char) : Bool := c.isAlphanum || c == '_' || c == '-'

/-- Splits a character list on `/`, keeping empty segments. -/
def splitSlash : List Char → List (List Char)
  | [] => [[]]
  | c :: cs =>
    if c = '/' then [] :: splitSlash cs
    else
      match splitSlash cs with
      | [] => [[c]]
      | p :: ps => (c :: p) :: ps

/-- The `Factory` (`src/lib.rs` line 217): compiles XPath text. -/
structure Factory where

/-- Modelled from the spec: `Factory::build` (the parser pipeline behind it
is not under `src/`). Empty input builds no expression; `$name` builds a
variable reference; a `/`-separated sequence of names builds a path of
child-element steps, absolute when the text starts with `/`; a path whose
last segment is empty is the `TrailingSlash` parse error; anything else in
the unmodelled remainder of the grammar is reported as `UnexpectedToken`. -/
def Factory.build (xpath : String) : Except ParserError (Option Expr) :=
  match xpath.data with
  | [] => .ok none
  | '$' :: rest =>
    if !rest.isEmpty && rest.all isNameChar then .ok (some (.varRef ⟨rest⟩))
    else .error (.UnexpectedToken xpath)
  | cs =>
    let ab :=
      match cs with
      | '/' :: rest => (true, rest)
      | _ => (false, cs)
    if ab.1 && ab.2.isEmpty then .ok (some (.path true []))
    else
      let parts := splitSlash ab.2
      if parts.getLast? = some [] then .error .TrailingSlash
      else if parts.all (fun p => !p.isEmpty && p.all isNameChar) then
        .ok (some (.path ab.1 (parts.map fun p => (⟨p⟩ : String))))
      else .error (.UnexpectedToken xpath)

/-- The evaluation context (`context` module, modelled from the spec):
variable and namespace maps plus the context node, with the document root
kept alongside for absolute paths. A node is carried as its preorder index
together with the forest of its children. -/
structure Context where
  variableMap : List (String × Value)
  namespaces : List (String × String)
  root_children : XmlForest
  node_index : Nat
  node_children : XmlForest
deriving Repr

/-- `Context::new(document.root())`: default context — the root as context
node, no variables, no namespaces. -/
def Context.new (document : Document) : Context :=
  ⟨[], [], document.root_children, 0, document.root_children⟩

/-- Top-level elements of a forest whose name matches, as (preorder index,
children) pairs; `start` is the preorder index of the forest's first node. -/
def topElems (name : String) (start : Nat) : XmlForest → List (Nat × XmlForest)
  | .nil => []
  | .elem n ch rest =>
    (if n = name then [(start, ch)] else []) ++
      topElems name (start + 1 + forestSize ch) rest
  | .text _ rest => topElems name (start + 1) rest
  | .comment _ rest => topElems name (start + 1) rest

/-- One `child::name` step applied to every origin node, in document order. -/
def stepOnce (name : String) (origins : List (Nat × XmlForest)) : List (Nat × XmlForest) :=
  origins.flatMap fun origin => topElems name (origin.1 + 1) origin.2

/-- Modelled from the spec: `Expression::evaluate` for the modelled fragment.
A variable reference looks the name up in the context (missing variables
signal `UnknownVariable`); a path walks its child steps from the document
root (absolute) or the context node (relative) and yields the resulting
node-set in document order. -/
def Expression.evaluate (expr : Expr) (context : Context) : Except ExpressionError Value :=
  match expr with
  | .varRef name =>
    match context.variableMap.lookup name with
    | some v => .ok v
    | none => .error (.UnknownVariable name)
  | .path absolute steps =>
    let start := if absolute then (0, context.root_children)
      else (context.node_index, context.node_children)
    let selected := steps.foldl (fun cur name => stepOnce name cur) [start]
    .ok (.Nodeset ⟨selected.map fun q => ⟨q.1, q.1, forestTexts q.2⟩⟩)

/-- The failure modes of executing an XPath (`enum Error`,
`src/lib.rs` lines 241-264). -/
inductive Error where
  | Parsing (e : ParserError) : Error
  | NoXPath : Error
  | Executing (e : ExpressionError) : Error
deriving DecidableEq, Repr

/-- `evaluate_xpath` (`src/lib.rs` lines 291-299): build the expression
(parse failures propagate as `Parsing`), fail with `NoXPath` when nothing
was built, then evaluate under the default context (evaluation failures
propagate as `Executing`). -/
def evaluate_xpath (document : Document) (xpath : String) : Except Error Value :=
  match Factory.build xpath with
  | .error e => .error (.Parsing e)
  | .ok none => .error .NoXPath
  | .ok (some expression) =>
    let context := Context.new document
    (Expression.evaluate expression context).mapError .Executing

/-! ### The claim-side reading of `Value::number` on strings

Stated from the claim's words, for comparison with the source's
`str_to_num`: trim ASCII whitespace (rather than Rust's Unicode
`str::trim`), then parse. -/

/-- String-to-number coercion as claim C2 describes it. -/
def ascii_trim_number (s : String) : F64 :=
  (parseF64 (trimBy asciiIsWhitespace s)).getD .nan

/-! ### Decimal digit lemmas -/

theorem isDigit_digitChar (d : Nat) : isDigit (digitChar d) = true := by
  match d with
  | 0 | 1 | 2 | 3 | 4 | 5 | 6 | 7 | 8 => decide
  | n + 9 => rfl

theorem dval_digitChar (d : Nat) (h : d < 10) : dval (digitChar d) = d := by
  interval_cases d <;> decide

theorem toNat_bounds_of_isDigit (c : Char) (h : isDigit c = true) :
    48 ≤ c.toNat ∧ c.toNat ≤ 57 := by
  simp only [isDigit, Bool.and_eq_true, decide_eq_true_eq] at h
  exact h

theorem charsToNat_acc (ds : List Char) :
    ∀ a : Nat, ds.foldl (fun a c => a * 10 + dval c) a = a * 10 ^ ds.length + charsToNat ds := by
  induction ds with
  | nil => intro a; simp [charsToNat]
  | cons d ds ih =>
    intro a
    simp only [List.foldl_cons, List.length_cons, charsToNat]
    rw [ih (a * 10 + dval d), ih (0 * 10 + dval d)]
    ring

theorem charsToNat_append (l1 l2 : List Char) :
    charsToNat (l1 ++ l2) = charsToNat l1 * 10 ^ l2.length + charsToNat l2 := by
  simp only [charsToNat, List.foldl_append]
  rw [charsToNat_acc l2 (List.foldl (fun a c => a * 10 + dval c) 0 l1)]
  rfl

theorem charsToNat_replicate_zero (k : Nat) : charsToNat (List.replicate k '0') = 0 := by
  induction k with
  | zero => rfl
  | succ k ih =>
    simp only [List.replicate_succ, charsToNat, List.foldl_cons] at ih ⊢
    simpa using ih

theorem charsToNat_singleton (c : Char) : charsToNat [c] = dval c := by
  simp [charsToNat]

theorem natCharsRevFuel_congr :
    ∀ f1 f2 n : Nat, n ≤ f1 → n ≤ f2 → natCharsRevFuel f1 n = natCharsRevFuel f2 n := by
  intro f1
  induction f1 with
  | zero =>
    intro f2 n h1 _
    have : n = 0 := Nat.le_zero.mp h1
    subst this
    cases f2 <;> rfl
  | succ f ih =>
    intro f2 n h1 h2
    match n, f2 with
    | 0, 0 => rfl
    | 0, _ + 1 => rfl
    | j + 1, 0 => omega
    | j + 1, f2' + 1 =>
      simp only [natCharsRevFuel]
      have hlt : (j + 1) / 10 < j + 1 := Nat.div_lt_self (Nat.succ_pos j) (by omega)
      rw [ih f2' ((j + 1) / 10) (by omega) (by omega)]

theorem charsToNat_natCharsRevFuel :
    ∀ fuel n : Nat, n ≤ fuel → charsToNat (natCharsRevFuel fuel n).reverse = n := by
  intro fuel
  induction fuel with
  | zero =>
    intro n h
    have : n = 0 := Nat.le_zero.mp h
    subst this; rfl
  | succ f ih =>
    intro n h
    match n with
    | 0 => rfl
    | j + 1 =>
      simp only [natCharsRevFuel, List.reverse_cons]
      rw [charsToNat_append]
      have hlt : (j + 1) / 10 < j + 1 := Nat.div_lt_self (Nat.succ_pos j) (by omega)
      rw [ih ((j + 1) / 10) (by omega)]
      rw [charsToNat_singleton, dval_digitChar ((j + 1) % 10) (Nat.mod_lt _ (by omega))]
      simp only [List.length_cons, List.length_nil, pow_one]
      omega

theorem charsToNat_natChars (n : Nat) : charsToNat (natChars n) = n := by
  by_cases h : n = 0
  · subst h; rfl
  · simp only [natChars, if_neg h, natCharsRev]
    exact charsToNat_natCharsRevFuel n n le_rfl

theorem mem_natCharsRevFuel :
    ∀ fuel n : Nat, ∀ c ∈ natCharsRevFuel fuel n, isDigit c = true := by
  intro fuel
  induction fuel with
  | zero => intro n c hc; simp [natCharsRevFuel] at hc
  | succ f ih =>
    intro n c hc
    match n with
    | 0 => simp [natCharsRevFuel] at hc
    | j + 1 =>
      simp only [natCharsRevFuel, List.mem_cons] at hc
      rcases hc with hc | hc
      · subst hc; exact isDigit_digitChar _
      · exact ih _ c hc

theorem mem_natChars (n : Nat) (c : Char) (hc : c ∈ natChars n) : isDigit c = true := by
  by_cases h : n = 0
  · subst h
    simp only [natChars, if_true, eq_self_iff_true, List.mem_singleton] at hc
    subst hc; decide
  · simp only [natChars, if_neg h, natCharsRev, List.mem_reverse] at hc
    exact mem_natCharsRevFuel n n c hc

theorem natChars_ne_nil (n : Nat) : natChars n ≠ [] := by
  by_cases h : n = 0
  · subst h; simp [natChars]
  · simp only [natChars, if_neg h, natCharsRev]
    match n, h with
    | j + 1, _ => simp [natCharsRevFuel]

/-! ### Split and normalisation lemmas -/

theorem splitAtChar_all_false (p : Char → Bool) :
    ∀ l : List Char, (∀ c ∈ l, p c = false) → splitAtChar p l = (l, none) := by
  intro l
  induction l with
  | nil => intro _; rfl
  | cons c cs ih =>
    intro h
    have hc : p c = false := h c (List.mem_cons_self c cs)
    simp only [splitAtChar, hc, Bool.false_eq_true, if_false]
    rw [ih (fun x hx => h x (List.mem_cons_of_mem c hx))]

theorem splitAtChar_append (p : Char → Bool) (c : Char) (l2 : List Char) (hc : p c = true) :
    ∀ l1 : List Char, (∀ x ∈ l1, p x = false) →
    splitAtChar p (l1 ++ c :: l2) = (l1, some l2) := by
  intro l1
  induction l1 with
  | nil => intro _; simp [splitAtChar, hc]
  | cons a l1 ih =>
    intro h
    have ha : p a = false := h a (List.mem_cons_self a l1)
    have hrec := ih (fun x hx => h x (List.mem_cons_of_mem a hx))
    simp only [List.cons_append, splitAtChar, ha, Bool.false_eq_true, if_false,
      List.append_eq, hrec]

theorem normFin_zero (neg : Bool) (e : Int) : normFin neg 0 e = .fin neg 0 0 := rfl

theorem normFinFuel_succ (fuel : Nat) (neg : Bool) (m : Nat) (e : Int) :
    normFinFuel (fuel + 1) neg m e =
      if m = 0 then .fin neg 0 0
      else if m % 10 = 0 then normFinFuel fuel neg (m / 10) (e + 1)
      else .fin neg m e := rfl

theorem normFin_done (neg : Bool) (m : Nat) (e : Int) (h : m % 10 ≠ 0) :
    normFin neg m e = .fin neg m e := by
  have hm : m ≠ 0 := by intro h0; subst h0; exact h rfl
  unfold normFin
  rw [normFinFuel_succ, if_neg hm, if_neg h]

theorem normFinFuel_congr :
    ∀ f1 f2 m : Nat, m < f1 → m < f2 → ∀ (neg : Bool) (e : Int),
      normFinFuel f1 neg m e = normFinFuel f2 neg m e := by
  intro f1
  induction f1 with
  | zero => intro f2 m h1; omega
  | succ f ih =>
    intro f2 m h1 h2 neg e
    match f2 with
    | 0 => omega
    | f2' + 1 =>
      simp only [normFinFuel]
      by_cases hm : m = 0
      · simp [hm]
      · simp only [hm, if_false]
        by_cases hd : m % 10 = 0
        · simp only [hd, if_true, eq_self_iff_true]
          have hlt : m / 10 < m := Nat.div_lt_self (Nat.pos_of_ne_zero hm) (by omega)
          exact ih f2' (m / 10) (by omega) (by omega) neg (e + 1)
        · simp [hd]

theorem normFin_mul10 (neg : Bool) (m : Nat) (e : Int) (hm : m ≠ 0) :
    normFin neg (m * 10) e = normFin neg m (e + 1) := by
  have h1 : m * 10 ≠ 0 := by positivity
  have h2 : m * 10 % 10 = 0 := Nat.mul_mod_left m 10
  have h3 : m * 10 / 10 = m := Nat.mul_div_cancel m (by omega)
  obtain ⟨j, hj⟩ : ∃ j, m * 10 = j + 1 := ⟨m * 10 - 1, by omega⟩
  unfold normFin
  rw [hj, normFinFuel_succ, ← hj, if_neg h1, if_pos h2, h3]
  exact normFinFuel_congr (m * 10) (m + 1) m (by omega) (by omega) neg (e + 1)

theorem normFin_mul_pow (neg : Bool) (m : Nat) (hm : m ≠ 0) :
    ∀ (k : Nat) (e : Int), normFin neg (m * 10 ^ k) e = normFin neg m (e + k) := by
  intro k
  induction k with
  | zero => intro e; simp
  | succ k ih =>
    intro e
    have h1 : m * 10 ^ (k + 1) = m * 10 ^ k * 10 := by ring
    have h2 : m * 10 ^ k ≠ 0 := by positivity
    rw [h1, normFin_mul10 neg (m * 10 ^ k) e h2, ih (e + 1)]
    congr 1
    push_cast
    ring

/-! ### Character-class lemmas -/

theorem digit_not_eE (c : Char) (h : isDigit c = true) : (c == 'e' || c == 'E') = false := by
  obtain ⟨h1, h2⟩ := toNat_bounds_of_isDigit c h
  have he : c ≠ 'e' := by
    intro hc; subst hc
    have : ('e').toNat = 101 := rfl
    omega
  have hE : c ≠ 'E' := by
    intro hc; subst hc
    have : ('E').toNat = 69 := rfl
    omega
  rw [beq_false_of_ne he, beq_false_of_ne hE]
  rfl

theorem digit_not_dot (c : Char) (h : isDigit c = true) : (c == '.') = false := by
  obtain ⟨h1, h2⟩ := toNat_bounds_of_isDigit c h
  apply beq_false_of_ne
  intro hc; subst hc
  have : ('.').toNat = 46 := rfl
  omega

theorem isEmpty_false_of_ne_nil {l : List Char} (h : l ≠ []) : l.isEmpty = false := by
  cases l with
  | nil => exact absurd rfl h
  | cons a l => rfl

theorem mem_finChars (m : Nat) (e : Int) (c : Char) (hc : c ∈ finChars m e) :
    isDigit c = true ∨ c = '.' := by
  unfold finChars at hc
  split at hc
  · simp only [List.mem_append] at hc
    rcases hc with hc | hc
    · exact Or.inl (mem_natChars m c hc)
    · rw [List.eq_of_mem_replicate hc]; exact Or.inl (by decide)
  · split at hc
    · simp only [List.mem_append, List.mem_cons] at hc
      rcases hc with hc | hc | hc
      · exact Or.inl (mem_natChars m c (List.take_subset _ _ hc))
      · exact Or.inr hc
      · exact Or.inl (mem_natChars m c (List.drop_subset _ _ hc))
    · simp only [List.mem_cons, List.mem_append] at hc
      rcases hc with hc | hc | hc | hc
      · subst hc; exact Or.inl (by decide)
      · exact Or.inr hc
      · rw [List.eq_of_mem_replicate hc]; exact Or.inl (by decide)
      · exact Or.inl (mem_natChars m c hc)

theorem finChars_not_eE (m : Nat) (e : Int) (c : Char) (hc : c ∈ finChars m e) :
    (c == 'e' || c == 'E') = false := by
  rcases mem_finChars m e c hc with h | h
  · exact digit_not_eE c h
  · subst h; rfl

/-! ### Printing then parsing a finite double -/

theorem parseDecimal_finChars (neg : Bool) (m : Nat) (e : Int)
    (hm : m ≠ 0 → m % 10 ≠ 0) (hz : m = 0 → e = 0) :
    parseDecimal neg (finChars m e) = some (.fin neg m e) := by
  have hE : splitAtChar (fun c => c == 'e' || c == 'E') (finChars m e) = (finChars m e, none) :=
    splitAtChar_all_false _ _ (finChars_not_eE m e)
  rcases Int.le_or_lt 0 e with he | he
  · have hfc : finChars m e = natChars m ++ List.replicate e.toNat '0' := by
      unfold finChars; rw [if_pos he]
    have hdig : ∀ c ∈ natChars m ++ List.replicate e.toNat '0', isDigit c = true := by
      intro c hc
      rcases List.mem_append.mp hc with hc | hc
      · exact mem_natChars m c hc
      · rw [List.eq_of_mem_replicate hc]; decide
    have hDot : splitAtChar (fun c => c == '.') (natChars m ++ List.replicate e.toNat '0') =
        (natChars m ++ List.replicate e.toNat '0', none) :=
      splitAtChar_all_false _ _ (fun c hc => digit_not_dot c (hdig c hc))
    have hall : (natChars m ++ List.replicate e.toNat '0').all isDigit = true :=
      List.all_eq_true.mpr hdig
    have hne : (natChars m ++ List.replicate e.toNat '0').isEmpty = false :=
      isEmpty_false_of_ne_nil (List.append_ne_nil_of_left_ne_nil (natChars_ne_nil m) _)
    rw [hfc] at hE ⊢
    simp only [parseDecimal, hE, hDot, hall, hne, Option.getD_none, List.all_nil,
      List.isEmpty_nil, Bool.and_true, Bool.true_and, Bool.not_false, Bool.or_true, if_true]
    rw [List.append_nil, charsToNat_append, charsToNat_natChars, charsToNat_replicate_zero,
      List.length_replicate]
    by_cases hm0 : m = 0
    · subst hm0
      have he0 : e = 0 := hz rfl
      subst he0
      rfl
    · rw [Nat.add_zero]
      have hstep : normFin neg (m * 10 ^ e.toNat) ((0 : Int) - ↑([] : List Char).length) =
          normFin neg m e := by
        simp only [List.length_nil, Nat.cast_zero, sub_zero]
        rw [normFin_mul_pow neg m hm0 e.toNat 0, zero_add, Int.toNat_of_nonneg he]
      rw [hstep, normFin_done neg m e (hm hm0)]
      simp
  · have hm0 : m ≠ 0 := by
      intro h0
      have := hz h0
      omega
    have hd10 : m % 10 ≠ 0 := hm hm0
    have hketoe : ((-e).toNat : Int) = -e := Int.toNat_of_nonneg (by omega)
    by_cases hk : (-e).toNat < (natChars m).length
    · have hfc : finChars m e =
          (natChars m).take ((natChars m).length - (-e).toNat) ++
            '.' :: (natChars m).drop ((natChars m).length - (-e).toNat) := by
        unfold finChars
        rw [if_neg (by omega), if_pos hk]
      have htake : ∀ c ∈ (natChars m).take ((natChars m).length - (-e).toNat), isDigit c = true :=
        fun c hc => mem_natChars m c (List.take_subset _ _ hc)
      have hdrop : ∀ c ∈ (natChars m).drop ((natChars m).length - (-e).toNat), isDigit c = true :=
        fun c hc => mem_natChars m c (List.drop_subset _ _ hc)
      have hDot : splitAtChar (fun c => c == '.')
          ((natChars m).take ((natChars m).length - (-e).toNat) ++
            '.' :: (natChars m).drop ((natChars m).length - (-e).toNat)) =
          ((natChars m).take ((natChars m).length - (-e).toNat),
            some ((natChars m).drop ((natChars m).length - (-e).toNat))) :=
        splitAtChar_append _ '.' _ rfl _ (fun c hc => digit_not_dot c (htake c hc))
      have halltake : ((natChars m).take ((natChars m).length - (-e).toNat)).all isDigit = true :=
        List.all_eq_true.mpr htake
      have halldrop : ((natChars m).drop ((natChars m).length - (-e).toNat)).all isDigit = true :=
        List.all_eq_true.mpr hdrop
      have hlentake : ((natChars m).take ((natChars m).length - (-e).toNat)).length =
          (natChars m).length - (-e).toNat := by
        rw [List.length_take]
        omega
      have hne2 : ((natChars m).take ((natChars m).length - (-e).toNat)).isEmpty = false := by
        apply isEmpty_false_of_ne_nil
        intro hnil
        rw [hnil] at hlentake
        simp only [List.length_nil] at hlentake
        omega
      rw [hfc] at hE ⊢
      simp only [parseDecimal, hE, hDot, halltake, halldrop, hne2, Option.getD_some,
        Bool.and_true, Bool.true_and, Bool.not_false, Bool.true_or, if_true]
      rw [List.take_append_drop, charsToNat_natChars]
      have hlendrop : (((natChars m).drop ((natChars m).length - (-e).toNat)).length : Int) =
          ((-e).toNat : Int) := by
        rw [List.length_drop]
        congr 1
        omega
      rw [hlendrop]
      rw [normFin_done neg m _ hd10]
      congr 2
      omega
    · have hfc : finChars m e =
          '0' :: '.' :: (List.replicate ((-e).toNat - (natChars m).length) '0' ++ natChars m) := by
        unfold finChars
        rw [if_neg (by omega), if_neg hk]
      have hrest : ∀ c ∈ List.replicate ((-e).toNat - (natChars m).length) '0' ++ natChars m,
          isDigit c = true := by
        intro c hc
        rcases List.mem_append.mp hc with hc | hc
        · rw [List.eq_of_mem_replicate hc]; decide
        · exact mem_natChars m c hc
      have hDot : splitAtChar (fun c => c == '.')
          ('0' :: '.' :: (List.replicate ((-e).toNat - (natChars m).length) '0' ++ natChars m)) =
          (['0'], some (List.replicate ((-e).toNat - (natChars m).length) '0' ++ natChars m)) := by
        have := splitAtChar_append (fun c => c == '.') '.'
          (List.replicate ((-e).toNat - (natChars m).length) '0' ++ natChars m) rfl ['0']
          (by intro x hx; rw [List.mem_singleton] at hx; subst hx; rfl)
        simpa using this
      have hallrest : (List.replicate ((-e).toNat - (natChars m).length) '0' ++ natChars m).all
          isDigit = true := List.all_eq_true.mpr hrest
      have c1 : (['0'] : List Char).all isDigit = true := rfl
      have c2 : (['0'] : List Char).isEmpty = false := rfl
      rw [hfc] at hE ⊢
      simp only [parseDecimal, hE, hDot, hallrest, c1, c2, Option.getD_some, Bool.and_true,
        Bool.true_and, Bool.not_false, Bool.true_or, if_true]
      have hval : charsToNat
          (['0'] ++ (List.replicate ((-e).toNat - (natChars m).length) '0' ++ natChars m)) = m := by
        have h1 : (['0'] : List Char) ++
            (List.replicate ((-e).toNat - (natChars m).length) '0' ++ natChars m) =
            List.replicate ((-e).toNat - (natChars m).length + 1) '0' ++ natChars m := by
          rw [List.replicate_succ]
          simp
        rw [h1, charsToNat_append, charsToNat_replicate_zero, charsToNat_natChars]
        simp
      have hlen : ((List.replicate ((-e).toNat - (natChars m).length) '0' ++
          natChars m).length : Int) = ((-e).toNat : Int) := by
        rw [List.length_append, List.length_replicate]
        have hlb : 0 < (natChars m).length := List.length_pos.mpr (natChars_ne_nil m)
        congr 1
        omega
      rw [hval, hlen, normFin_done neg m _ hd10]
      congr 2
      omega

theorem parseF64core_finChars (neg : Bool) (m : Nat) (e : Int)
    (hm : m ≠ 0 → m % 10 ≠ 0) (hz : m = 0 → e = 0) :
    parseF64core neg (finChars m e) = some (.fin neg m e) := by
  unfold parseF64core
  rw [parseDecimal_finChars neg m e hm hz]

theorem finChars_ne_nil (m : Nat) (e : Int) : finChars m e ≠ [] := by
  unfold finChars
  split
  · exact List.append_ne_nil_of_left_ne_nil (natChars_ne_nil m) _
  · split
    · intro h
      rcases List.append_eq_nil.mp h with ⟨_, h2⟩
      exact List.cons_ne_nil _ _ h2
    · exact List.cons_ne_nil _ _

theorem finChars_head_not_sign (m : Nat) (e : Int) (c : Char) (rest : List Char)
    (hl : finChars m e = c :: rest) : c ≠ '-' ∧ c ≠ '+' := by
  have hc : c ∈ finChars m e := by rw [hl]; exact List.mem_cons_self c rest
  rcases mem_finChars m e c hc with h | h
  · obtain ⟨h1, h2⟩ := toNat_bounds_of_isDigit c h
    constructor
    · intro hm; subst hm
      have : ('-').toNat = 45 := rfl
      omega
    · intro hm; subst hm
      have : ('+').toNat = 43 := rfl
      omega
  · subst h; exact ⟨by decide, by decide⟩

theorem parseF64_f64ToString_fin (neg : Bool) (m : Nat) (e : Int)
    (hm : m ≠ 0 → m % 10 ≠ 0) (hz : m = 0 → e = 0) (hneg : neg = true → m ≠ 0) :
    parseF64 (f64ToString (.fin neg m e)) = some (.fin neg m e) := by
  cases neg with
  | true =>
    have hm0 : m ≠ 0 := hneg rfl
    have hprint : f64ToString (.fin true m e) = ⟨'-' :: finChars m e⟩ := by
      show (⟨(if (true && decide (m ≠ 0)) = true then ['-'] else []) ++ finChars m e⟩ : String) =
        ⟨'-' :: finChars m e⟩
      rw [if_pos (by simp [hm0])]
      rfl
    rw [hprint]
    show parseF64 ⟨'-' :: finChars m e⟩ = some (.fin true m e)
    unfold parseF64
    simp only [if_pos rfl]
    exact parseF64core_finChars true m e hm hz
  | false =>
    have hprint : f64ToString (.fin false m e) = ⟨finChars m e⟩ := by
      show (⟨(if (false && decide (m ≠ 0)) = true then ['-'] else []) ++ finChars m e⟩ : String) =
        ⟨finChars m e⟩
      rw [if_neg (by simp)]
      rfl
    rw [hprint]
    obtain ⟨c, rest, hl⟩ : ∃ c rest, finChars m e = c :: rest := by
      cases hfc : finChars m e with
      | nil => exact absurd hfc (finChars_ne_nil m e)
      | cons c rest => exact ⟨c, rest, rfl⟩
    obtain ⟨hd1, hd2⟩ := finChars_head_not_sign m e c rest hl
    rw [hl]
    show parseF64 ⟨c :: rest⟩ = some (.fin false m e)
    unfold parseF64
    simp only [if_neg hd1, if_neg hd2]
    rw [← hl]
    exact parseF64core_finChars false m e hm hz

/-! ### Whitespace-free printing -/

theorem rustIsWhitespace_eq_false_of_bounds (c : Char) (h45 : 43 ≤ c.toNat)
    (h57 : c.toNat ≤ 57) : rustIsWhitespace c = false := by
  unfold rustIsWhitespace
  simp only [decide_eq_false_iff_not]
  omega

theorem dropWhile_eq_self_of_all {p : Char → Bool} {l : List Char}
    (h : ∀ c ∈ l, p c = false) : l.dropWhile p = l := by
  cases l with
  | nil => rfl
  | cons c cs =>
    have := h c (List.mem_cons_self c cs)
    simp [List.dropWhile_cons, this]

theorem trimBy_eq_self (p : Char → Bool) (l : List Char) (h : ∀ c ∈ l, p c = false) :
    trimBy p ⟨l⟩ = ⟨l⟩ := by
  unfold trimBy
  have h1 : l.dropWhile p = l := dropWhile_eq_self_of_all h
  have h2 : l.reverse.dropWhile p = l.reverse :=
    dropWhile_eq_self_of_all (fun c hc => h c (List.mem_reverse.mp hc))
  show String.mk (((String.mk l).data.dropWhile p).reverse.dropWhile p).reverse = String.mk l
  rw [show (String.mk l).data = l from rfl, h1, h2, List.reverse_reverse]

theorem rustTrim_f64ToString_fin (neg : Bool) (m : Nat) (e : Int) :
    rustTrim (f64ToString (.fin neg m e)) = f64ToString (.fin neg m e) := by
  unfold f64ToString rustTrim
  apply trimBy_eq_self
  intro c hc
  rcases List.mem_append.mp hc with hc | hc
  · split at hc
    · rw [List.mem_singleton] at hc
      subst hc; decide
    · simp at hc
  · rcases mem_finChars m e c hc with h | h
    · obtain ⟨h1, h2⟩ := toNat_bounds_of_isDigit c h
      exact rustIsWhitespace_eq_false_of_bounds c (by omega) h2
    · subst h; decide

/-! ### Every parsed value is a canonical representation -/

theorem normFinFuel_valid :
    ∀ fuel m : Nat, m < fuel → ∀ (neg : Bool) (e : Int),
      F64.valid (normFinFuel fuel neg m e) = true := by
  intro fuel
  induction fuel with
  | zero => intro m h; omega
  | succ f ih =>
    intro m h neg e
    rw [normFinFuel_succ]
    by_cases hm : m = 0
    · rw [if_pos hm]; rfl
    · rw [if_neg hm]
      by_cases hd : m % 10 = 0
      · rw [if_pos hd]
        have : m / 10 < m := Nat.div_lt_self (Nat.pos_of_ne_zero hm) (by omega)
        exact ih (m / 10) (by omega) neg (e + 1)
      · rw [if_neg hd]
        simp [F64.valid, hm, hd]

theorem normFin_valid (neg : Bool) (m : Nat) (e : Int) :
    F64.valid (normFin neg m e) = true :=
  normFinFuel_valid (m + 1) m (by omega) neg e

theorem parseDecimal_valid (neg : Bool) (cs : List Char) (v : F64)
    (h : parseDecimal neg cs = some v) : F64.valid v = true := by
  simp only [parseDecimal] at h
  split at h
  · exact absurd h (by simp)
  · split at h
    · rw [← Option.some_inj.mp h]
      exact normFin_valid _ _ _
    · exact absurd h (by simp)

theorem parseF64core_valid (neg : Bool) (cs : List Char) (v : F64)
    (h : parseF64core neg cs = some v) : F64.valid v = true := by
  unfold parseF64core at h
  split at h
  · next v' hv' =>
    have hvv : v' = v := Option.some_inj.mp h
    subst hvv
    exact parseDecimal_valid neg cs v' hv'
  · split at h
    · rw [← Option.some_inj.mp h]; rfl
    · split at h
      · rw [← Option.some_inj.mp h]; rfl
      · exact absurd h (by simp)

theorem parseF64_valid (s : String) (v : F64) (h : parseF64 s = some v) :
    F64.valid v = true := by
  unfold parseF64 at h
  split at h
  · exact absurd h (by simp)
  · next c rest heq =>
    split at h
    · exact parseF64core_valid true rest v h
    · split at h
      · exact parseF64core_valid false rest v h
      · exact parseF64core_valid false (c :: rest) v h

theorem str_to_num_valid (s : String) : F64.valid (str_to_num s) = true := by
  unfold str_to_num
  cases hp : parseF64 (rustTrim s) with
  | none => rfl
  | some v =>
    rw [Option.getD_some]
    exact parseF64_valid (rustTrim s) v hp

/-! ### Formatting a parsed number is stable -/

theorem string_number_string_idem (r : F64) (hv : F64.valid r = true) :
    Value.string (.Number (str_to_num (Value.string (.Number r)))) = Value.string (.Number r) := by
  cases r with
  | nan => decide
  | inf neg => cases neg <;> decide
  | fin neg m e =>
    simp only [F64.valid, Bool.and_eq_true, decide_eq_true_eq] at hv
    obtain ⟨hm, hz⟩ := hv
    by_cases hneg : neg = true ∧ m = 0
    · obtain ⟨h1, h2⟩ := hneg
      subst h1; subst h2
      have he0 : e = 0 := hz rfl
      subst he0
      decide
    · have hstr : Value.string (.Number (.fin neg m e)) = f64ToString (.fin neg m e) := rfl
      have hneg2 : neg = true → m ≠ 0 := by
        intro h1 h2
        exact hneg ⟨h1, h2⟩
      rw [hstr]
      unfold str_to_num
      rw [rustTrim_f64ToString_fin, parseF64_f64ToString_fin neg m e hm hz hneg2]
      rfl

/-! ### The first node in document order -/

theorem foldl_docOrder_min (l : List Node) :
    ∀ a : Node,
      ∃ b : Node,
        l.foldl
          (fun acc n =>
            match acc with
            | none => some n
            | some m => if n.docOrder < m.docOrder then some n else some m)
          (some a) = some b ∧
        (b = a ∨ b ∈ l) ∧ b.docOrder ≤ a.docOrder ∧ ∀ m ∈ l, b.docOrder ≤ m.docOrder := by
  induction l with
  | nil =>
    intro a
    exact ⟨a, rfl, Or.inl rfl, le_rfl, by simp⟩
  | cons n l ih =>
    intro a
    by_cases h : n.docOrder < a.docOrder
    · obtain ⟨b, hfold, hmem, hle, hall⟩ := ih n
      refine ⟨b, ?_, ?_, ?_, ?_⟩
      · simp only [List.foldl_cons]
        rw [if_pos h]
        exact hfold
      · rcases hmem with hb | hb
        · exact Or.inr (by rw [hb]; exact List.mem_cons_self n l)
        · exact Or.inr (List.mem_cons_of_mem n hb)
      · omega
      · intro m hm
        rcases List.mem_cons.mp hm with hm | hm
        · rw [hm]; exact hle
        · exact hall m hm
    · obtain ⟨b, hfold, hmem, hle, hall⟩ := ih a
      refine ⟨b, ?_, ?_, hle, ?_⟩
      · simp only [List.foldl_cons]
        rw [if_neg h]
        exact hfold
      · rcases hmem with hb | hb
        · exact Or.inl hb
        · exact Or.inr (List.mem_cons_of_mem n hb)
      · intro m hm
        rcases List.mem_cons.mp hm with hm | hm
        · rw [hm]; omega
        · exact hall m hm

theorem document_order_first_min (ns : Nodeset) (h : ns.nodes ≠ []) :
    ∃ b ∈ ns.nodes,
      ns.document_order_first = some b ∧ ∀ m ∈ ns.nodes, b.docOrder ≤ m.docOrder := by
  obtain ⟨n, l, hnl⟩ : ∃ n l, ns.nodes = n :: l := by
    cases hc : ns.nodes with
    | nil => exact absurd hc h
    | cons n l => exact ⟨n, l, rfl⟩
  obtain ⟨b, hfold, hmem, hle, hall⟩ := foldl_docOrder_min l n
  refine ⟨b, ?_, ?_, ?_⟩
  · rw [hnl]
    rcases hmem with hb | hb
    · rw [hb]; exact List.mem_cons_self n l
    · exact List.mem_cons_of_mem n hb
  · unfold Nodeset.document_order_first
    rw [hnl]
    simp only [List.foldl_cons]
    exact hfold
  · intro m hm
    rw [hnl] at hm
    rcases List.mem_cons.mp hm with hm | hm
    · rw [hm]; exact hle
    · exact hall m hm

/-! ### Integral values print without a decimal point -/

theorem natCharsRev_mul10 (m : Nat) (hm : m ≠ 0) :
    natCharsRev (m * 10) = '0' :: natCharsRev m := by
  obtain ⟨j, hj⟩ : ∃ j, m * 10 = j + 1 := ⟨m * 10 - 1, by omega⟩
  have h0 : (j + 1) % 10 = 0 := by omega
  have h10 : (j + 1) / 10 = m := by omega
  calc natCharsRev (m * 10) = natCharsRevFuel (j + 1) (j + 1) := by rw [natCharsRev, hj]
    _ = digitChar ((j + 1) % 10) :: natCharsRevFuel j ((j + 1) / 10) := rfl
    _ = '0' :: natCharsRevFuel j m := by rw [h0, h10]; rfl
    _ = '0' :: natCharsRev m := by
        rw [natCharsRevFuel_congr j m m (by omega) le_rfl]
        rfl

theorem natChars_mul_pow10 (m : Nat) (hm : m ≠ 0) :
    ∀ k : Nat, natChars (m * 10 ^ k) = natChars m ++ List.replicate k '0' := by
  intro k
  induction k with
  | zero => simp
  | succ k ih =>
    have h1 : m * 10 ^ (k + 1) = m * 10 ^ k * 10 := by ring
    have h2 : m * 10 ^ k ≠ 0 := by positivity
    have h3 : m * 10 ^ k * 10 ≠ 0 := by positivity
    rw [h1]
    rw [show natChars (m * 10 ^ k * 10) = (natCharsRev (m * 10 ^ k * 10)).reverse by
      unfold natChars; rw [if_neg h3]]
    rw [natCharsRev_mul10 _ h2, List.reverse_cons]
    rw [show (natCharsRev (m * 10 ^ k)).reverse = natChars (m * 10 ^ k) by
      unfold natChars; rw [if_neg h2]]
    rw [ih, List.append_assoc]
    congr 1
    exact (List.replicate_succ' k '0').symm

theorem integral_valid_nonneg_exp (neg : Bool) (m : Nat) (e : Int)
    (hv : F64.valid (.fin neg m e) = true) (hi : F64.isIntegral (.fin neg m e) = true) :
    0 ≤ e := by
  simp only [F64.valid, Bool.and_eq_true, decide_eq_true_eq] at hv
  simp only [F64.isIntegral, Bool.or_eq_true, decide_eq_true_eq] at hi
  obtain ⟨hm, hz⟩ := hv
  rcases hi with h | h
  · exact h
  · by_contra hlt
    push_neg at hlt
    have hkpos : (-e).toNat ≠ 0 := by omega
    have h10 : 10 ∣ m := dvd_trans (dvd_pow_self 10 hkpos) h
    have hmod : m % 10 = 0 := Nat.dvd_iff_mod_eq_zero.mp h10
    by_cases hm0 : m = 0
    · have := hz hm0; omega
    · exact hm hm0 hmod

/-! ### Claim theorems -/

/-- C1: `Value::Number(n).string()` prints "NaN" for NaN, "Infinity" for
positive infinity, "-Infinity" for negative infinity, an integer form
without a decimal point for integral values (in particular "0" for `-0.0`
and "-42" for `-42.0`), and otherwise the shortest round-trip decimal: in
the decimal abstraction, formatting a canonical finite value and parsing
the result recovers the value exactly. -/
theorem c1_number_to_string_spec :
    Value.string (.Number .nan) = "NaN" ∧
    Value.string (.Number (.inf false)) = "Infinity" ∧
    Value.string (.Number (.inf true)) = "-Infinity" ∧
    Value.string (.Number (.fin true 0 0)) = "0" ∧
    Value.string (.Number (.fin true 42 0)) = "-42" ∧
    (∀ (neg : Bool) (m : Nat) (e : Int), F64.valid (.fin neg m e) = true →
      F64.isIntegral (.fin neg m e) = true →
      '.' ∉ (Value.string (.Number (.fin neg m e))).data ∧
        Value.string (.Number (.fin neg m e)) =
          ⟨(if neg && decide (m ≠ 0) then ['-'] else []) ++ natChars (m * 10 ^ e.toNat)⟩) ∧
    (∀ (neg : Bool) (m : Nat) (e : Int), F64.valid (.fin neg m e) = true →
      (neg = true → m ≠ 0) →
      parseF64 (Value.string (.Number (.fin neg m e))) = some (.fin neg m e)) := by
  refine ⟨by decide, by decide, by decide, by decide, by decide, ?_, ?_⟩
  · intro neg m e hv hi
    have he : 0 ≤ e := integral_valid_nonneg_exp neg m e hv hi
    simp only [F64.valid, Bool.and_eq_true, decide_eq_true_eq] at hv
    obtain ⟨hm, hz⟩ := hv
    have hstr : Value.string (.Number (.fin neg m e)) =
        ⟨(if neg && decide (m ≠ 0) then ['-'] else []) ++ finChars m e⟩ := rfl
    have hfc : finChars m e = natChars m ++ List.replicate e.toNat '0' := by
      unfold finChars; rw [if_pos he]
    by_cases hm0 : m = 0
    · have he0 : e = 0 := hz hm0
      subst hm0; subst he0
      cases neg <;> exact ⟨by decide, by decide⟩
    · have hnc : natChars (m * 10 ^ e.toNat) = natChars m ++ List.replicate e.toNat '0' :=
        natChars_mul_pow10 m hm0 e.toNat
      constructor
      · rw [hstr, hfc]
        intro hdot
        rcases List.mem_append.mp hdot with hd | hd
        · split at hd
          · rw [List.mem_singleton] at hd
            exact absurd hd (by decide)
          · simp at hd
        · rcases List.mem_append.mp hd with hd | hd
          · have := mem_natChars m '.' hd
            exact absurd this (by decide)
          · have := List.eq_of_mem_replicate hd
            exact absurd this (by decide)
      · rw [hstr, hfc, hnc]
  · intro neg m e hv hneg
    simp only [F64.valid, Bool.and_eq_true, decide_eq_true_eq] at hv
    obtain ⟨hm, hz⟩ := hv
    have hstr : Value.string (.Number (.fin neg m e)) = f64ToString (.fin neg m e) := rfl
    rw [hstr]
    exact parseF64_f64ToString_fin neg m e hm hz hneg

/-- C1 witness: the integral clause at `300` and the round-trip clause at
`1.5`, with the hypotheses discharged by `decide`. -/
theorem c1_number_to_string_spec_witness :
    '.' ∉ (Value.string (.Number (.fin false 3 2))).data ∧
    Value.string (.Number (.fin false 3 2)) = "300" ∧
    parseF64 (Value.string (.Number (.fin false 15 (-1)))) = some (.fin false 15 (-1)) := by
  obtain ⟨-, -, -, -, -, hint, hrt⟩ := c1_number_to_string_spec
  obtain ⟨hdot, hform⟩ := hint false 3 2 (by decide) (by decide)
  refine ⟨hdot, ?_, hrt false 15 (-1) (by decide) (by decide)⟩
  rw [hform]
  decide

/-- C2 counterexample: `str::trim` removes the Unicode no-break space
U+00A0, so `Value::String("\u{00A0}1.5").number()` is `1.5`, while the
claim's ASCII-whitespace trimming leaves the character in place and yields
NaN. -/
theorem c2_ascii_trim_counterexample :
    Value.number (.String "\u00A01.5") = .fin false 15 (-1) ∧
    ascii_trim_number "\u00A01.5" = .nan ∧
    Value.number (.String "\u00A01.5") ≠ ascii_trim_number "\u00A01.5" :=
  ⟨by decide, by decide, by decide⟩

/-- C2 (amended): `Value::String(s).number()` trims Unicode whitespace (the
`White_Space` property, Rust's `str::trim`) — not only ASCII whitespace —
from both ends of `s` and parses the remainder as an IEEE-754 decimal
number; if parsing fails the result is NaN. In particular
`"\r\n1.5 \t"` coerces to `1.5` and `"not a number"` to NaN. -/
theorem c2_number_of_string_amended (s : String) :
    Value.number (.String s) = (parseF64 (trimBy rustIsWhitespace s)).getD .nan ∧
    Value.number (.String "\r\n1.5 \t") = .fin false 15 (-1) ∧
    F64.isNaN (Value.number (.String "not a number")) = true :=
  ⟨rfl, by decide, by decide⟩

/-- C3: `Value::Nodeset(ns).string()` is the string value of the first node
of `ns` in document order — a member whose document-order position is least
— and the empty string when `ns` is empty. -/
theorem c3_nodeset_string (ns : Nodeset) :
    (ns.nodes = [] → Value.string (.Nodeset ns) = "") ∧
    (ns.nodes ≠ [] → ∃ b ∈ ns.nodes,
      (∀ m ∈ ns.nodes, b.docOrder ≤ m.docOrder) ∧
        Value.string (.Nodeset ns) = b.stringValue) := by
  constructor
  · intro h
    obtain ⟨l⟩ := ns
    simp only at h
    subst h
    rfl
  · intro h
    obtain ⟨b, hmem, hfirst, hmin⟩ := document_order_first_min ns h
    refine ⟨b, hmem, hmin, ?_⟩
    show (match ns.document_order_first with
      | some n => n.stringValue
      | none => "") = b.stringValue
    rw [hfirst]

/-- C3 witness: the empty node-set and a two-node set whose second element
comes first in document order. -/
theorem c3_nodeset_string_witness :
    Value.string (.Nodeset ⟨[]⟩) = "" ∧
    ∃ b ∈ [Node.mk 2 2 "comment 2", Node.mk 1 1 "comment 1"],
      (∀ m ∈ [Node.mk 2 2 "comment 2", Node.mk 1 1 "comment 1"],
        b.docOrder ≤ m.docOrder) ∧
        Value.string (.Nodeset ⟨[Node.mk 2 2 "comment 2", Node.mk 1 1 "comment 1"]⟩) =
          b.stringValue :=
  ⟨(c3_nodeset_string ⟨[]⟩).1 rfl,
    (c3_nodeset_string ⟨[Node.mk 2 2 "comment 2", Node.mk 1 1 "comment 1"]⟩).2 (by decide)⟩

/-- C4: `Value::Nodeset(ns).number()` is `str_to_num` of
`Value::Nodeset(ns).string()`; for a set of two comments with string values
"42.42" and "1234" in document order it yields 42.42 in either insertion
order. -/
theorem c4_nodeset_number (ns : Nodeset) :
    Value.number (.Nodeset ns) = str_to_num (Value.string (.Nodeset ns)) ∧
    Value.number (.Nodeset ⟨[Node.mk 1 1 "42.42", Node.mk 2 2 "1234"]⟩) =
      .fin false 4242 (-2) ∧
    Value.number (.Nodeset ⟨[Node.mk 2 2 "1234", Node.mk 1 1 "42.42"]⟩) =
      .fin false 4242 (-2) :=
  ⟨rfl, by decide, by decide⟩

/-- C5: `Value::boolean` — a node-set is true iff its size is positive, a
boolean is itself, a number is true iff it is neither (IEEE) zero nor NaN,
and a string is true iff it is non-empty. -/
theorem c5_boolean_coercions (ns : Nodeset) (b : Bool) (n : F64) (s : String) :
    (Value.boolean (.Nodeset ns) = true ↔ 0 < ns.size) ∧
    Value.boolean (.Boolean b) = b ∧
    (Value.boolean (.Number n) = true ↔ (n.isZero = false ∧ n.isNaN = false)) ∧
    (Value.boolean (.String s) = true ↔ s ≠ "") := by
  refine ⟨?_, rfl, ?_, ?_⟩
  · show decide (0 < ns.size) = true ↔ 0 < ns.size
    exact decide_eq_true_iff
  · show (!n.isZero && !n.isNaN) = true ↔ (n.isZero = false ∧ n.isNaN = false)
    simp only [Bool.and_eq_true, Bool.not_eq_true']
  · show (!s.data.isEmpty) = true ↔ s ≠ ""
    constructor
    · intro h hs
      subst hs
      exact absurd h (by decide)
    · intro h
      rw [Bool.not_eq_true']
      apply isEmpty_false_of_ne_nil
      intro hd
      apply h
      cases s with
      | mk data => simp only at hd; rw [hd]

/-- C6: `string(number(string(x))) = string(number(x))` for every string
`x`: coercing any string to a number, formatting it, re-parsing the printed
form and formatting again yields the same text. -/
theorem c6_string_number_string_roundtrip (x : String) :
    Value.string (.Number (Value.number (.String (Value.string (.Number
      (Value.number (.String x))))))) =
    Value.string (.Number (Value.number (.String x))) :=
  string_number_string_idem (str_to_num x) (str_to_num_valid x)

/-- The repository tests' document `<root><child>content</child></root>`. -/
def exampleDocument : Document :=
  ⟨.elem "root" (.elem "child" (.text "content" .nil) .nil) .nil⟩

/-- C7: `evaluate_xpath(d, "")` is the error `NoXPath` for every document,
and every built expression is evaluated under the default context: the
document root as context node, no variables, no namespaces. -/
theorem c7_evaluate_xpath_default_context (d : Document) :
    evaluate_xpath d "" = .error .NoXPath ∧
    (∀ (t : String) (ex : Expr), Factory.build t = .ok (some ex) →
      evaluate_xpath d t =
        (Expression.evaluate ex (Context.new d)).mapError .Executing) ∧
    (Context.new d).variableMap = [] ∧
    (Context.new d).namespaces = [] ∧
    (Context.new d).node_index = 0 ∧
    (Context.new d).node_children = d.root_children := by
  refine ⟨rfl, ?_, rfl, rfl, rfl, rfl⟩
  intro t ex h
  unfold evaluate_xpath
  rw [h]

/-- C7 witness: the empty expression and a variable reference on the test
document. -/
theorem c7_evaluate_xpath_default_context_witness :
    evaluate_xpath exampleDocument "" = .error .NoXPath ∧
    evaluate_xpath exampleDocument "$foo" =
      (Expression.evaluate (.varRef "foo") (Context.new exampleDocument)).mapError
        .Executing :=
  ⟨(c7_evaluate_xpath_default_context exampleDocument).1,
    (c7_evaluate_xpath_default_context exampleDocument).2.1 "$foo" (.varRef "foo")
      (by decide)⟩

/-- C8: `evaluate_xpath` returns the first failure, wrapped in the matching
`Error` variant — `Parsing` for a build failure, `NoXPath` when nothing was
built, `Executing` for an evaluation failure — and otherwise the evaluated
value; on `<root><child>content</child></root>`, `/root/child/` yields
`Parsing(TrailingSlash)` and `$foo` yields
`Executing(UnknownVariable("foo"))`. -/
theorem c8_evaluate_xpath_error_propagation (d : Document) (t : String) :
    (∀ e, Factory.build t = .error e → evaluate_xpath d t = .error (.Parsing e)) ∧
    (Factory.build t = .ok none → evaluate_xpath d t = .error .NoXPath) ∧
    (∀ ex er, Factory.build t = .ok (some ex) →
      Expression.evaluate ex (Context.new d) = .error er →
      evaluate_xpath d t = .error (.Executing er)) ∧
    (∀ ex v, Factory.build t = .ok (some ex) →
      Expression.evaluate ex (Context.new d) = .ok v →
      evaluate_xpath d t = .ok v) ∧
    evaluate_xpath exampleDocument "/root/child/" = .error (.Parsing .TrailingSlash) ∧
    evaluate_xpath exampleDocument "$foo" =
      .error (.Executing (.UnknownVariable "foo")) := by
  refine ⟨?_, ?_, ?_, ?_, by decide, by decide⟩
  · intro e h
    unfold evaluate_xpath
    rw [h]
  · intro h
    unfold evaluate_xpath
    rw [h]
  · intro ex er h1 h2
    unfold evaluate_xpath
    rw [h1]
    show (Expression.evaluate ex (Context.new d)).mapError Error.Executing = _
    rw [h2]
    rfl
  · intro ex v h1 h2
    unfold evaluate_xpath
    rw [h1]
    show (Expression.evaluate ex (Context.new d)).mapError Error.Executing = _
    rw [h2]
    rfl

/-- C8 witness: all four propagation branches exercised on the test
document — a parse error, the empty expression, an unknown variable, and a
successful path selection. -/
theorem c8_evaluate_xpath_error_propagation_witness :
    evaluate_xpath exampleDocument "/root/child/" = .error (.Parsing .TrailingSlash) ∧
    evaluate_xpath exampleDocument "" = .error .NoXPath ∧
    evaluate_xpath exampleDocument "$foo" =
      .error (.Executing (.UnknownVariable "foo")) ∧
    evaluate_xpath exampleDocument "/root/child" =
      .ok (.Nodeset ⟨[Node.mk 2 2 "content"]⟩) :=
  ⟨(c8_evaluate_xpath_error_propagation exampleDocument "/root/child/").1
      .TrailingSlash (by decide),
    (c8_evaluate_xpath_error_propagation exampleDocument "").2.1 (by decide),
    (c8_evaluate_xpath_error_propagation exampleDocument "$foo").2.2.1
      (.varRef "foo") (.UnknownVariable "foo") (by decide) (by decide),
    (c8_evaluate_xpath_error_propagation exampleDocument "/root/child").2.2.2.1
      (.path true ["root", "child"]) (.Nodeset ⟨[Node.mk 2 2 "content"]⟩)
      (by decide) (by decide)⟩

/-- C9: `Value::Boolean(b)` coerces to the strings "true"/"false" and to
the numbers 1.0/0.0. -/
theorem c9_boolean_string_number (b : Bool) :
    Value.string (.Boolean true) = "true" ∧
    Value.string (.Boolean false) = "false" ∧
    Value.number (.Boolean true) = .fin false 1 0 ∧
    Value.number (.Boolean false) = .fin false 0 0 ∧
    Value.string (.Boolean b) = (if b then "true" else "false") ∧
    Value.number (.Boolean b) = (if b then .fin false 1 0 else .fin false 0 0) :=
  ⟨rfl, rfl, rfl, rfl, rfl, rfl⟩

/-- C10: the accessors `boolean`, `number` and `string` are deterministic —
equal values give identical results, bitwise identical for `number` since
`F64` equality is representation equality — and do not modify the value:
the Rust methods take `&self` with no interior mutability, so they embed as
pure functions and the receiver compares equal to its prior value after any
call. -/
theorem c10_accessors_deterministic_pure (v w : Value) (h : v = w) :
    Value.boolean v = Value.boolean w ∧
    Value.number v = Value.number w ∧
    Value.string v = Value.string w ∧
    v = w := by
  subst h
  exact ⟨rfl, rfl, rfl, rfl⟩

/-- C10 witness. -/
theorem c10_accessors_deterministic_pure_witness :
    Value.boolean (.Number (.fin false 15 (-1))) =
      Value.boolean (.Number (.fin false 15 (-1))) ∧
    Value.number (.Number (.fin false 15 (-1))) =
      Value.number (.Number (.fin false 15 (-1))) ∧
    Value.string (.Number (.fin false 15 (-1))) =
      Value.string (.Number (.fin false 15 (-1))) ∧
    Value.Number (.fin false 15 (-1)) = Value.Number (.fin false 15 (-1)) :=
  c10_accessors_deterministic_pure (.Number (.fin false 15 (-1)))
    (.Number (.fin false 15 (-1))) rfl
